import Mathlib

/-!
Verification of the Kypher query compiler (kgtk/kypher/query.py) and the
KGTK edge reader (kgtk/join/edgereader.py).

Query text is modelled as `List Char`; Python dictionaries that are only
extended at the end are modelled as insertion-ordered association lists.
All definitions are stated first, followed by the theorems.
-/

namespace KgtkQuery

/-! ## Literal parameter table (`get_literal_parameter`, `replace_literal_parameters`) -/

/-- A literal value interned into the literal-parameter table.  In the
source these are the Python values stored in `litmap`; queries intern the
label strings and parameter values, so we model them as character lists. -/
abbrev Lit := List Char

/-- The literal-parameter table `litmap`: an insertion-ordered map from
literal values to placeholder tokens (Python dict, appended at the end). -/
abbrev Litmap := List (Lit × List Char)

/-- The decimal digit character for `n < 10` (used to model the rendering
performed by the `%d` format directive in `get_literal_parameter`). -/
def digitChar (n : Nat) : Char :=
  match n with
  | 0 => '0' | 1 => '1' | 2 => '2' | 3 => '3' | 4 => '4'
  | 5 => '5' | 6 => '6' | 7 => '7' | 8 => '8' | _ => '9'

/-- Fuel-driven helper for `decDigits`; the fuel only bounds the
recursion depth and does not affect the value (`decDigitsAux_congr`). -/
def decDigitsAux (fuel n : Nat) : List Char :=
  match fuel with
  | 0 => []
  | fuel + 1 =>
    if n < 10 then [digitChar n]
    else decDigitsAux fuel (n / 10) ++ [digitChar (n % 10)]

/-- Decimal representation of a natural number, most significant digit
first, as produced by the `%d` format directive. -/
def decDigits (n : Nat) : List Char := decDigitsAux (n + 1) n

/-- Numeric value of a digit character. -/
def digitVal (c : Char) : Nat := c.toNat - 48

/-- Numeric value of a most-significant-first digit string. -/
def decValue (ds : List Char) : Nat :=
  ds.foldl (fun a c => 10 * a + digitVal c) 0

/-- The placeholder token `???N??` minted by `get_literal_parameter` for
the `N`-th inserted literal. -/
def phTok (n : Nat) : List Char :=
  '?' :: '?' :: '?' :: decDigits n ++ ['?', '?']

/-- `KgtkQuery.get_literal_parameter`: return an existing placeholder for
an equal literal, else mint `???N??` where `N` is the current map size,
record it at the end of the map, and return it. -/
def get_literal_parameter (literal : Lit) (litmap : Litmap) : List Char × Litmap :=
  match litmap.find? (fun e => e.1 == literal) with
  | some e => (e.2, litmap)
  | none =>
    let placeholder := phTok litmap.length
    (placeholder, litmap ++ [(literal, placeholder)])

/-- A literal map built by a sequence of `get_literal_parameter` calls
starting from the empty map. -/
def internAll (vals : List Lit) : Litmap :=
  vals.foldl (fun m v => (get_literal_parameter v m).2) []

/-- Well-formedness of a literal map: the `i`-th entry carries the token
`???i??`, and keys are distinct.  Every map built by `internAll` is
well-formed (`wf_internAll`). -/
def WFLitmap (litmap : Litmap) : Prop :=
  (∀ i (h : i < litmap.length), (litmap.get ⟨i, h⟩).2 = phTok i) ∧
    (litmap.map Prod.fst).Nodup

/-- Splitting a character list on the two-character separator `??`,
scanning left to right, as `re.split` does in
`replace_literal_parameters`.  Returns the first token and the remaining
tokens. -/
def splitQQ : List Char → List Char × List (List Char)
  | [] => ([], [])
  | [c] => ([c], [])
  | c1 :: c2 :: rest =>
    if c1 = '?' ∧ c2 = '?' then
      ([], (splitQQ rest).1 :: (splitQQ rest).2)
    else
      (c1 :: (splitQQ (c2 :: rest)).1, (splitQQ (c2 :: rest)).2)

/-- The reversed literal map `{p: l for l, p in litmap.items()}` applied
to a key: later entries override earlier ones, as in the Python dict
comprehension. -/
def revLookup (litmap : Litmap) (key : List Char) : Option Lit :=
  litmap.foldl (fun acc e => if e.2 == key then some e.1 else acc) none

/-- The token loop of `replace_literal_parameters`: every token starting
with `?` is a placeholder island; emit a single `?` in its place and look
up its literal under the key `?? ++ token ++ ??`; a missing key is the
Python `KeyError` (modelled as `none`). -/
def processTokens (litmap : Litmap) : List (List Char) → Option (List Char × List Lit)
  | [] => some ([], [])
  | t :: ts =>
    match processTokens litmap ts with
    | none => none
    | some (q, ps) =>
      if t.head? = some '?' then
        match revLookup litmap ('?' :: '?' :: t ++ ['?', '?']) with
        | none => none
        | some lit => some ('?' :: q, lit :: ps)
      else some (t ++ q, ps)

/-- `KgtkQuery.replace_literal_parameters`: split the staged query text on
`??`, replace each placeholder island with a positional `?` and collect
the corresponding literals in text order. -/
def replace_literal_parameters (raw_query : List Char) (litmap : Litmap) :
    Option (List Char × List Lit) :=
  let s := splitQQ raw_query
  processTokens litmap (s.1 :: s.2)

/-- A chunk of staged query text: either plain text (the SQL skeleton,
which contains no `?` characters) or an embedded placeholder occurrence
for the `i`-th entry of the literal map. -/
inductive Chunk : Type
  | plain (s : List Char)
  | ph (i : Nat)

/-- Rendering a chunk into staged query text: plain text stays, the
`i`-th placeholder renders as its token `???i??`. -/
def Chunk.render : Chunk → List Char
  | .plain s => s
  | .ph i => phTok i

/-- Staged query text assembled from chunks. -/
def renderChunks (cs : List Chunk) : List Char :=
  (cs.map Chunk.render).flatten

/-- Well-formed chunks with respect to a literal map: plain text has no
`?` characters, and placeholder indices point into the map. -/
def WFChunks (litmap : Litmap) : List Chunk → Prop
  | [] => True
  | .plain s :: cs => (∀ c ∈ s, c ≠ '?') ∧ WFChunks litmap cs
  | .ph i :: cs => i < litmap.length ∧ WFChunks litmap cs

/-- The expected final text: each placeholder occurrence becomes a single
`?`. -/
def finalText : List Chunk → List Char
  | [] => []
  | .plain s :: cs => s ++ finalText cs
  | .ph _ :: cs => '?' :: finalText cs

/-- The expected positional parameters: the literal value of each
placeholder occurrence, in text order. -/
def textParams (litmap : Litmap) : List Chunk → List Lit
  | [] => []
  | .plain _ :: cs => textParams litmap cs
  | .ph i :: cs =>
    match litmap.get? i with
    | some e => e.1 :: textParams litmap cs
    | none => textParams litmap cs

/-- Number of `?` characters in a text. -/
def countQ (s : List Char) : Nat := s.countP (fun c => c = '?')

/-! ## Variable binding map (`register_clause_variable`) -/

/-- An SQL clause variable: a `(table alias, column)` pair. -/
abbrev SqlVar := String × String

/-- The variable map `varmap`: Kypher variable name to the list of its
SQL clause-variable references (Python set, iterated in a fixed order and
only ever extended). -/
abbrev Varmap := List (String × List SqlVar)

/-- The join set `joins`: canonicalized pairs of equivalent SQL columns
(Python set, modelled with membership-checked insertion). -/
abbrev Joins := List (SqlVar × SqlVar)

/-- Dictionary lookup in an association list (first matching key). -/
def alookup (m : Varmap) (k : String) : Option (List SqlVar) :=
  (m.find? (fun e => e.1 == k)).map (fun e => e.2)

/-- Set insertion: append unless already present. -/
def setAdd {α : Type} [BEq α] (l : List α) (x : α) : List α :=
  if l.contains x then l else l ++ [x]

/-- Replace the binding of key `k` in the association list. -/
def aupdate (m : Varmap) (k : String) (v : List SqlVar) : Varmap :=
  m.map (fun e => if e.1 == k then (e.1, v) else e)

/-- Python string comparison (code-point lexicographic), on the character
lists underlying the strings. -/
def strLtB : List Char → List Char → Bool
  | [], [] => false
  | [], _ :: _ => true
  | _ :: _, [] => false
  | a :: s', b :: t' =>
    if a.toNat < b.toNat then true
    else if b.toNat < a.toNat then false
    else strLtB s' t'

/-- Python tuple comparison of `(alias, column)` pairs: compare the
aliases, and on equal aliases compare the columns. -/
def tupLtB (x y : SqlVar) : Bool :=
  if x.1 == y.1 then strLtB x.2.data y.2.data else strLtB x.1.data y.1.data

/-- `equiv = [best, new]; equiv.sort(); tuple(equiv)`: the two-element
sort swaps exactly when the second element compares less than the first. -/
def sortPair (x y : SqlVar) : SqlVar × SqlVar :=
  if tupLtB y x then (y, x) else (x, y)

/-- The best-reference scan of `register_clause_variable`: the first
existing reference is taken unconditionally (the `best_var is None` arm);
a later reference whose alias equals the new alias is taken and stops the
scan; any other reference overwrites the current best. -/
def bestVarLoop (this_graph : String) (best : Option SqlVar) :
    List SqlVar → Option SqlVar
  | [] => best
  | v :: rest =>
    match best with
    | none => bestVarLoop this_graph (some v) rest
    | some _ =>
      if v.1 = this_graph then some v
      else bestVarLoop this_graph (some v) rest

/-- `KgtkQuery.register_clause_variable`: register a reference of a Kypher
variable; the first reference creates a singleton set, a later reference
is equi-joined with the best existing reference.  The impossible case of
an empty registered reference set (registration never creates one) is
mapped to `none`. -/
def register_clause_variable (query_var : String) (sql_var : SqlVar)
    (varmap : Varmap) (joins : Joins) : Option (Varmap × Joins) :=
  match alookup varmap query_var with
  | none => some (varmap ++ [(query_var, [sql_var])], joins)
  | some sql_vars =>
    match bestVarLoop sql_var.1 none sql_vars with
    | none => none
    | some best_var =>
      if sql_var ≠ best_var then
        some (aupdate varmap query_var (setAdd sql_vars sql_var),
          setAdd joins (sortPair best_var sql_var))
      else some (varmap, joins)

/-- Run a sequence of `register_clause_variable` calls. -/
def runRegisters : List (String × SqlVar) → Varmap → Joins → Option (Varmap × Joins)
  | [], vm, js => some (vm, js)
  | (qv, sv) :: ops, vm, js =>
    match register_clause_variable qv sv vm js with
    | none => none
    | some (vm', js') => runRegisters ops vm' js'

/-! ## Graph-handle resolver (`map_graph_handle_to_file`) -/

/-- `os.path.basename`: the part of the path after the last slash. -/
def basename (f : List Char) : List Char :=
  (f.reverse.takeWhile (fun c => c != '/')).reverse

/-- The base handle computed by `map_graph_handle_to_file`: strip the
maximal trailing run of digits when it is nonempty and does not cover the
whole handle (`re.search of [0-9]+$` with `m.start() > 0`). -/
def baseHandle (handle : List Char) : List Char :=
  let ds := handle.reverse.takeWhile Char.isDigit
  if ds.length ≠ 0 ∧ ds.length < handle.length then
    handle.take (handle.length - ds.length)
  else handle

/-- `key.find(sub) >= 0`: the substring containment test used on
basenames by the resolver. -/
def isInfixB (sub : List Char) : List Char → Bool
  | [] => sub.isPrefixOf []
  | c :: rest => sub.isPrefixOf (c :: rest) || isInfixB sub rest

/-- The scan loop of `map_graph_handle_to_file`: files already mapped to
other handles are skipped; a file is accepted if its full path equals the
handle, or else if its basename contains the handle or the base handle as
a substring; acceptance memoizes the mapping. -/
def mapHandleLoop (handle base : List Char) (hmap : List (List Char × List Char))
    (mapped : List (List Char)) :
    List (List Char) → Option (List Char × List (List Char × List Char))
  | [] => none
  | file :: rest =>
    if mapped.contains file then mapHandleLoop handle base hmap mapped rest
    else if file == handle then some (file, hmap ++ [(handle, file)])
    else if isInfixB handle (basename file) || isInfixB base (basename file) then
      some (file, hmap ++ [(handle, file)])
    else mapHandleLoop handle base hmap mapped rest

/-- `KgtkQuery.map_graph_handle_to_file`: memoized greedy mapping of a
graph handle onto one of the registered files; failure to map raises
(modelled as `none`). -/
def map_graph_handle_to_file (files : List (List Char))
    (hmap : List (List Char × List Char)) (handle : List Char) :
    Option (List Char × List (List Char × List Char)) :=
  match (hmap.find? (fun e => e.1 == handle)).map (fun e => e.2) with
  | some f => some (f, hmap)
  | none => mapHandleLoop handle (baseHandle handle) hmap (hmap.map Prod.snd) files

/-! ## Expression translator (`expression_to_sql`) -/

/-- A chain element of a property-lookup expression (`Expression2`): each
element should be a `parser.PropertyLookup`; anything else aborts the
lookup. -/
inductive ChainElt : Type
  | propertyLookup (prop : String)
  | otherChain
  deriving DecidableEq

/-- The expression AST handed to the compiler by the Kypher parser,
with the source class names. -/
inductive Expr : Type
  | Literal (value : Lit)
  | Parameter (name : String)
  | Variable (name : String)
  | ListE (elements : List Expr)
  | Minus (arg : Expr)
  | Add (arg1 arg2 : Expr)
  | Sub (arg1 arg2 : Expr)
  | Multi (arg1 arg2 : Expr)
  | Div (arg1 arg2 : Expr)
  | Eq (arg1 arg2 : Expr)
  | Neq (arg1 arg2 : Expr)
  | Lt (arg1 arg2 : Expr)
  | Gt (arg1 arg2 : Expr)
  | Lte (arg1 arg2 : Expr)
  | Gte (arg1 arg2 : Expr)
  | Not (arg : Expr)
  | And (arg1 arg2 : Expr)
  | Or (arg1 arg2 : Expr)
  | Xor (arg1 arg2 : Expr)
  | Hat (arg1 arg2 : Expr)
  | Case
  | Call (function : String) (args : List Expr) (distinct : Bool)
  | Expression2 (arg1 : Expr) (arg2 : List ChainElt)
  | Expression3 (arg1 arg2 : Expr) (operator : String)

/-- Failure modes of the translation (the `raise` statements in the
source). -/
inductive QErr : Type
  | illegalContext (varName : String)
  | undefinedVariable (varName : String)
  | undefinedParameter (name : String)
  | emptyReferenceSet (varName : String)
  | unsupportedOp (op : String)
  | illegalCast
  | unhandledPropLookup
  | unhandledOp (op : String)
  deriving DecidableEq

/-- The store interface consulted by the translator. -/
structure Store : Type where
  is_user_function : String → Bool
  is_aggregate_function : String → Bool

/-- Modelled from the spec: `sql_quote_ident` is imported from
`kgtk.kypher.sqlstore`, which is not among the sources; per the spec,
identifiers are double-quoted with internal double quotes doubled. -/
def sql_quote_ident (s : String) : List Char :=
  '"' :: (s.data.flatMap (fun c => if c = '"' then ['"', '"'] else [c])) ++ ['"']

/-- `KgtkQuery.is_kgtk_operator`: the name upper-cases to something
starting with `KGTK_`. -/
def is_kgtk_operator (op : String) : Bool :=
  ['K', 'G', 'T', 'K', '_'].isPrefixOf (op.data.map Char.toUpper)

/-- Does the emission text end in the five characters `."ID"`, case
insensitively (`var.upper().endswith` in the source)? -/
def endsWithIdColumn (v : List Char) : Bool :=
  ['.', '"', 'I', 'D', '"'].isSuffixOf (v.map Char.toUpper)

/-- The property-lookup loop of the `Expression2` branch: a chain element
that is not a property lookup aborts (the broken-out `for` falls into the
raise); a KGTK user function wraps the emission; an emission ending in
the id column has the id portion replaced by the property name; any other
emission has the property appended as a wide-column suffix. -/
def chainLoop (st : Store) : List Char → List ChainElt → Option (List Char)
  | v, [] => some v
  | v, ChainElt.propertyLookup prop :: rest =>
    if is_kgtk_operator prop && st.is_user_function prop then
      chainLoop st (prop.data ++ '(' :: v ++ [')']) rest
    else if endsWithIdColumn v then
      chainLoop st (v.take (v.length - 3) ++ prop.data ++ ['"']) rest
    else
      chainLoop st (v.take (v.length - 1) ++ ';' :: prop.data ++ ['"']) rest
  | _, ChainElt.otherChain :: _ => none

/-- `'(%s %s %s)'`: parenthesized infix emission for the operator
table. -/
def binEmit (op : List Char) (a1 a2 : List Char) : List Char :=
  '(' :: a1 ++ ' ' :: op ++ ' ' :: a2 ++ [')']

mutual

/-- `KgtkQuery.expression_to_sql`: translate a Kypher expression into its
SQL text, threading the literal map; `varmap = none` models the contexts
where external variables are not allowed. -/
def expression_to_sql (st : Store) (qparams : List (String × Lit)) :
    Expr → Litmap → Option Varmap → Except QErr (List Char × Litmap)
  | Expr.Literal value, litmap, _ =>
    let r := get_literal_parameter value litmap
    .ok (r.1, r.2)
  | Expr.Parameter name, litmap, _ =>
    match (qparams.find? (fun e => e.1 == name)).map (fun e => e.2) with
    | none => .error (QErr.undefinedParameter name)
    | some value =>
      let r := get_literal_parameter value litmap
      .ok (r.1, r.2)
  | Expr.Variable name, litmap, varmap =>
    match varmap with
    | none => .error (QErr.illegalContext name)
    | some vm =>
      if name = "*" then .ok (name.data, litmap)
      else
        match alookup vm name with
        | none => .error (QErr.undefinedVariable name)
        | some sql_vars =>
          match sql_vars.head? with
          | none => .error (QErr.emptyReferenceSet name)
          | some gc => .ok (gc.1.data ++ '.' :: sql_quote_ident gc.2, litmap)
  | Expr.ListE elements, litmap, _ =>
    match expressions_to_sql st qparams elements litmap none with
    | .error e => .error e
    | .ok (els, litmap') =>
      .ok ('(' :: List.intercalate [',', ' '] els ++ [')'], litmap')
  | Expr.Minus arg, litmap, varmap =>
    match expression_to_sql st qparams arg litmap varmap with
    | .error e => .error e
    | .ok (a, litmap') => .ok ('(' :: '-' :: ' ' :: a ++ [')'], litmap')
  | Expr.Add arg1 arg2, litmap, varmap =>
    match expression_to_sql st qparams arg1 litmap varmap with
    | .error e => .error e
    | .ok (a1, lm1) =>
      match expression_to_sql st qparams arg2 lm1 varmap with
      | .error e => .error e
      | .ok (a2, lm2) => .ok (binEmit ['+'] a1 a2, lm2)
  | Expr.Sub arg1 arg2, litmap, varmap =>
    match expression_to_sql st qparams arg1 litmap varmap with
    | .error e => .error e
    | .ok (a1, lm1) =>
      match expression_to_sql st qparams arg2 lm1 varmap with
      | .error e => .error e
      | .ok (a2, lm2) => .ok (binEmit ['-'] a1 a2, lm2)
  | Expr.Multi arg1 arg2, litmap, varmap =>
    match expression_to_sql st qparams arg1 litmap varmap with
    | .error e => .error e
    | .ok (a1, lm1) =>
      match expression_to_sql st qparams arg2 lm1 varmap with
      | .error e => .error e
      | .ok (a2, lm2) => .ok (binEmit ['*'] a1 a2, lm2)
  | Expr.Div arg1 arg2, litmap, varmap =>
    match expression_to_sql st qparams arg1 litmap varmap with
    | .error e => .error e
    | .ok (a1, lm1) =>
      match expression_to_sql st qparams arg2 lm1 varmap with
      | .error e => .error e
      | .ok (a2, lm2) => .ok (binEmit ['/'] a1 a2, lm2)
  | Expr.Hat _ _, _, _ => .error (QErr.unsupportedOp "^")
  | Expr.Eq arg1 arg2, litmap, varmap =>
    match expression_to_sql st qparams arg1 litmap varmap with
    | .error e => .error e
    | .ok (a1, lm1) =>
      match expression_to_sql st qparams arg2 lm1 varmap with
      | .error e => .error e
      | .ok (a2, lm2) => .ok (binEmit ['='] a1 a2, lm2)
  | Expr.Neq arg1 arg2, litmap, varmap =>
    match expression_to_sql st qparams arg1 litmap varmap with
    | .error e => .error e
    | .ok (a1, lm1) =>
      match expression_to_sql st qparams arg2 lm1 varmap with
      | .error e => .error e
      | .ok (a2, lm2) => .ok (binEmit ['!', '='] a1 a2, lm2)
  | Expr.Lt arg1 arg2, litmap, varmap =>
    match expression_to_sql st qparams arg1 litmap varmap with
    | .error e => .error e
    | .ok (a1, lm1) =>
      match expression_to_sql st qparams arg2 lm1 varmap with
      | .error e => .error e
      | .ok (a2, lm2) => .ok (binEmit ['<'] a1 a2, lm2)
  | Expr.Gt arg1 arg2, litmap, varmap =>
    match expression_to_sql st qparams arg1 litmap varmap with
    | .error e => .error e
    | .ok (a1, lm1) =>
      match expression_to_sql st qparams arg2 lm1 varmap with
      | .error e => .error e
      | .ok (a2, lm2) => .ok (binEmit ['>'] a1 a2, lm2)
  | Expr.Lte arg1 arg2, litmap, varmap =>
    match expression_to_sql st qparams arg1 litmap varmap with
    | .error e => .error e
    | .ok (a1, lm1) =>
      match expression_to_sql st qparams arg2 lm1 varmap with
      | .error e => .error e
      | .ok (a2, lm2) => .ok (binEmit ['<', '='] a1 a2, lm2)
  | Expr.Gte arg1 arg2, litmap, varmap =>
    match expression_to_sql st qparams arg1 litmap varmap with
    | .error e => .error e
    | .ok (a1, lm1) =>
      match expression_to_sql st qparams arg2 lm1 varmap with
      | .error e => .error e
      | .ok (a2, lm2) => .ok (binEmit ['>', '='] a1 a2, lm2)
  | Expr.Not arg, litmap, varmap =>
    match expression_to_sql st qparams arg litmap varmap with
    | .error e => .error e
    | .ok (a, litmap') =>
      .ok ('(' :: 'N' :: 'O' :: 'T' :: ' ' :: a ++ [')'], litmap')
  | Expr.And arg1 arg2, litmap, varmap =>
    match expression_to_sql st qparams arg1 litmap varmap with
    | .error e => .error e
    | .ok (a1, lm1) =>
      match expression_to_sql st qparams arg2 lm1 varmap with
      | .error e => .error e
      | .ok (a2, lm2) => .ok (binEmit ['A', 'N', 'D'] a1 a2, lm2)
  | Expr.Or arg1 arg2, litmap, varmap =>
    match expression_to_sql st qparams arg1 litmap varmap with
    | .error e => .error e
    | .ok (a1, lm1) =>
      match expression_to_sql st qparams arg2 lm1 varmap with
      | .error e => .error e
      | .ok (a2, lm2) => .ok (binEmit ['O', 'R'] a1 a2, lm2)
  | Expr.Xor _ _, _, _ => .error (QErr.unsupportedOp "XOR")
  | Expr.Case, _, _ => .error (QErr.unsupportedOp "CASE")
  | Expr.Call function args distinct, litmap, varmap =>
    if (function.data.map Char.toUpper) = ['C', 'A', 'S', 'T'] then
      match args with
      | [e1, Expr.Variable t] =>
        match expression_to_sql st qparams e1 litmap varmap with
        | .error e => .error e
        | .ok (a, lm1) =>
          .ok ('C' :: 'A' :: 'S' :: 'T' :: '(' :: a
            ++ ' ' :: 'A' :: 'S' :: ' ' :: t.data ++ [')'], lm1)
      | _ => .error QErr.illegalCast
    else
      match expressions_to_sql st qparams args litmap varmap with
      | .error e => .error e
      | .ok (as1, lm1) =>
        let d := if distinct
          then ['D', 'I', 'S', 'T', 'I', 'N', 'C', 'T', ' '] else []
        .ok (function.data ++ '(' :: d
          ++ List.intercalate [',', ' '] as1 ++ [')'], lm1)
  | Expr.Expression2 arg1 arg2, litmap, varmap =>
    match arg1 with
    | Expr.Variable nm =>
      match expression_to_sql st qparams (Expr.Variable nm) litmap varmap with
      | .error e => .error e
      | .ok (v, lm1) =>
        match chainLoop st v arg2 with
        | some v' => .ok (v', lm1)
        | none => .error QErr.unhandledPropLookup
    | _ => .error QErr.unhandledPropLookup
  | Expr.Expression3 arg1 arg2 operator, litmap, varmap =>
    match expression_to_sql st qparams arg1 litmap varmap with
    | .error e => .error e
    | .ok (a1, lm1) =>
      match expression_to_sql st qparams arg2 lm1 varmap with
      | .error e => .error e
      | .ok (a2, lm2) =>
        let op := operator.data.map Char.toUpper
        if isInfixB op ['I', 'N'] then
          .ok (binEmit op a1 a2, lm2)
        else if isInfixB op ['R', 'E', 'G', 'E', 'X'] then
          .ok ('K' :: 'G' :: 'T' :: 'K' :: '_' :: 'R' :: 'E' :: 'G' :: 'E' :: 'X'
            :: '(' :: a1 ++ ',' :: ' ' :: a2 ++ [')'], lm2)
        else .error (QErr.unhandledOp operator)

/-- Translate a list of expressions in order, threading the literal
map. -/
def expressions_to_sql (st : Store) (qparams : List (String × Lit)) :
    List Expr → Litmap → Option Varmap → Except QErr (List (List Char) × Litmap)
  | [], litmap, _ => .ok ([], litmap)
  | e :: es, litmap, varmap =>
    match expression_to_sql st qparams e litmap varmap with
    | .error err => .error err
    | .ok (t, lm1) =>
      match expressions_to_sql st qparams es lm1 varmap with
      | .error err => .error err
      | .ok (ts, lm2) => .ok (t :: ts, lm2)

end

/-- The OFFSET part of `limit_clauses_to_sql`: the skip expression is
translated with the variable map forced absent. -/
def limitSkipPart (st : Store) (qparams : List (String × Lit))
    (skip_clause : Option Expr) (limit : List Char) (litmap : Litmap) :
    Except QErr (Option (List Char) × Litmap) :=
  match skip_clause with
  | none => .ok (some limit, litmap)
  | some e =>
    match expression_to_sql st qparams e litmap none with
    | .error err => .error err
    | .ok (t, lm1) =>
      .ok (some (limit ++ ' ' :: 'O' :: 'F' :: 'F' :: 'S' :: 'E' :: 'T' :: ' ' :: t),
        lm1)

/-- `KgtkQuery.limit_clauses_to_sql`: emit `LIMIT <n>` (or `LIMIT -1`
when only a skip is present) followed by an optional `OFFSET <n>`;
both expressions are translated with the variable map forced absent. -/
def limit_clauses_to_sql (st : Store) (qparams : List (String × Lit))
    (skip_clause limit_clause : Option Expr) (litmap : Litmap)
    (varmap : Option Varmap) : Except QErr (Option (List Char) × Litmap) :=
  match skip_clause, limit_clause with
  | none, none => .ok (none, litmap)
  | _, some e =>
    match expression_to_sql st qparams e litmap none with
    | .error err => .error err
    | .ok (t, lm1) =>
      limitSkipPart st qparams skip_clause
        ('L' :: 'I' :: 'M' :: 'I' :: 'T' :: ' ' :: t) lm1
  | _, none =>
    limitSkipPart st qparams skip_clause
      ['L', 'I', 'M', 'I', 'T', ' ', '-', '1'] litmap

/-- A concrete store with no user and no aggregate functions, for
concrete evaluations. -/
def emptyStore : Store := ⟨fun _ => false, fun _ => false⟩

/-- The per-property rewrite of the specification for property lookups:
a registered KGTK user function wraps the emission; an emission ending in
the id column (case-insensitively) has the id portion replaced by the
property name; otherwise the property becomes a wide-column suffix. -/
def specPropStep (st : Store) (v : List Char) (prop : String) : List Char :=
  if is_kgtk_operator prop && st.is_user_function prop then
    prop.data ++ '(' :: v ++ [')']
  else if endsWithIdColumn v then
    v.take (v.length - 3) ++ prop.data ++ ['"']
  else v.take (v.length - 1) ++ ';' :: prop.data ++ ['"']

/-! ## Return-clause synthesis (`return_clause_to_sql_selection`) -/

mutual

/-- Modelled from the spec: `parser.has_element` (the parser module is
not among the sources) recursively searches an expression; a return item
aggregates iff some `Call` node inside it names a store-classified
aggregate function. -/
def hasAggCall (st : Store) : Expr → Bool
  | .Literal _ => false
  | .Parameter _ => false
  | .Variable _ => false
  | .ListE es => anyAggCall st es
  | .Minus a => hasAggCall st a
  | .Add a b => hasAggCall st a || hasAggCall st b
  | .Sub a b => hasAggCall st a || hasAggCall st b
  | .Multi a b => hasAggCall st a || hasAggCall st b
  | .Div a b => hasAggCall st a || hasAggCall st b
  | .Eq a b => hasAggCall st a || hasAggCall st b
  | .Neq a b => hasAggCall st a || hasAggCall st b
  | .Lt a b => hasAggCall st a || hasAggCall st b
  | .Gt a b => hasAggCall st a || hasAggCall st b
  | .Lte a b => hasAggCall st a || hasAggCall st b
  | .Gte a b => hasAggCall st a || hasAggCall st b
  | .Not a => hasAggCall st a
  | .And a b => hasAggCall st a || hasAggCall st b
  | .Or a b => hasAggCall st a || hasAggCall st b
  | .Xor a b => hasAggCall st a || hasAggCall st b
  | .Hat a b => hasAggCall st a || hasAggCall st b
  | .Case => false
  | .Call f args _ => st.is_aggregate_function f || anyAggCall st args
  | .Expression2 a _ => hasAggCall st a
  | .Expression3 a b _ => hasAggCall st a || hasAggCall st b

/-- Does any expression of the list contain an aggregate call? -/
def anyAggCall (st : Store) : List Expr → Bool
  | [] => false
  | e :: es => hasAggCall st e || anyAggCall st es

end

/-- A return item: its expression and its optional alias. -/
structure ReturnItem : Type where
  expression : Expr
  name : Option String

/-- The item loop of `return_clause_to_sql_selection`: per item, the
translated expression text, the emitted selection piece (the text
followed by the quoted alias when one is present) and the `agg_info`
entry (`none` for an item with an aggregate call — or with a falsy group
key, mirroring the Python `and`/`or` chain — else the raw alias or the
raw expression text). -/
def return_items_loop (st : Store) (qparams : List (String × Lit)) :
    List ReturnItem → Litmap → Option Varmap →
    Except QErr (List (List Char) × List (List Char) × List (Option (List Char)) × Litmap)
  | [], litmap, _ => .ok ([], [], [], litmap)
  | item :: items, litmap, varmap =>
    match expression_to_sql st qparams item.expression litmap varmap with
    | .error e => .error e
    | .ok (expr, lm1) =>
      let is_agg := hasAggCall st item.expression
      let piece := match item.name with
        | some nm => expr ++ ' ' :: sql_quote_ident nm
        | none => expr
      let info := match item.name with
        | some nm => if !is_agg ∧ nm ≠ "" then some nm.data else none
        | none => if !is_agg ∧ expr ≠ [] then some expr else none
      match return_items_loop st qparams items lm1 varmap with
      | .error e => .error e
      | .ok (pieces, emissions, infos, lm2) =>
        .ok (piece :: pieces, expr :: emissions, info :: infos, lm2)

/-- The grouping-bound loop of `return_clause_to_sql_selection`:
`first_reg` is the running minimum over columns with non-null `agg_info`,
`last_agg` the running maximum over columns with null `agg_info`. -/
def agg_loop : List (Option (List Char)) → Int → Int → Int → Int × Int
  | [], _, first_reg, last_agg => (first_reg, last_agg)
  | some _ :: rest, col, first_reg, last_agg =>
    agg_loop rest (col + 1) (min col first_reg) last_agg
  | none :: rest, col, first_reg, last_agg =>
    agg_loop rest (col + 1) first_reg (max col last_agg)

/-- `KgtkQuery.return_clause_to_sql_selection`: the selection text and
the optional GROUP BY clause. -/
def return_clause_to_sql_selection (st : Store) (qparams : List (String × Lit))
    (distinct : Bool) (items : List ReturnItem) (litmap : Litmap)
    (varmap : Option Varmap) :
    Except QErr (List Char × Option (List Char) × Litmap) :=
  match return_items_loop st qparams items litmap varmap with
  | .error e => .error e
  | .ok (pieces, _, infos, lm1) =>
    let select := (if distinct then ['D', 'I', 'S', 'T', 'I', 'N', 'C', 'T', ' ']
        else []) ++ List.intercalate [',', ' '] pieces
    let fl := agg_loop infos 0 (infos.length : Int) (-1)
    let group_by :=
      if fl.2 > fl.1 then
        some (['G', 'R', 'O', 'U', 'P', ' ', 'B', 'Y', ' ']
          ++ List.intercalate [',', ' '] ((infos.take fl.2.toNat).filterMap id))
      else none
    .ok (select, group_by, lm1)

/-- The index of the first return item containing no aggregate call (the
item count when every item aggregates). -/
def firstRegIdx (st : Store) (items : List ReturnItem) : Int :=
  (items.findIdx (fun it => !hasAggCall st it.expression) : Int)

/-- The index of the last return item containing an aggregate call (`-1`
when no item aggregates). -/
def lastAggIdx (st : Store) : List ReturnItem → Int
  | [] => -1
  | it :: items =>
    if lastAggIdx st items ≥ 0 then lastAggIdx st items + 1
    else if hasAggCall st it.expression then 0 else -1

/-- The index of the last null entry of an `agg_info` list (`-1` when
there is none). -/
def lastNoneIdx : List (Option (List Char)) → Int
  | [] => -1
  | o :: rest =>
    if lastNoneIdx rest ≥ 0 then lastNoneIdx rest + 1
    else if o.isNone then 0 else -1

/-- The specified `agg_info` entry of a return item: null for an item
with an aggregate call, else the group-key text — the alias when present,
else the raw translated expression text. -/
def specAggEntry (st : Store) (it : ReturnItem) (em : List Char) :
    Option (List Char) :=
  if hasAggCall st it.expression then none
  else some ((it.name.map String.data).getD em)

/-- A concrete store whose only aggregate function is `count`, for
concrete evaluations. -/
def demoAggStore : Store := ⟨fun _ => false, fun f => f == "count"⟩

/-- A concrete return-item list: a plain aliased variable followed by an
aggregate call. -/
def demoItems : List ReturnItem :=
  [⟨Expr.Variable "a", some "x"⟩,
    ⟨Expr.Call "count" [Expr.Variable "a"] false, none⟩]

/-- A concrete variable map for the demo items. -/
def demoVarmap : Varmap := [("a", [("g_c1", "node1")])]

/-! ## Edge reader (`EdgeReader.__next__`) -/

/-- `EdgeReader.__next__` once a line has been produced by the underlying
iterator: split on the column separator, enforce the require/prohibit
column-count policies (a raised `ValueError` is `none`), and optionally
fill missing trailing columns with empty values.  The separator is
modelled as a single character (the default tab). -/
def edgeReaderNext
    (require_all_columns prohibit_extra_columns fill_missing_columns : Bool)
    (column_count : Nat) (column_separator : Char) (line : List Char) :
    Option (List (List Char)) :=
  let values := line.splitOn column_separator
  if require_all_columns = true ∧ values.length < column_count then none
  else if prohibit_extra_columns = true ∧ values.length > column_count then none
  else some (if fill_missing_columns = true ∧ values.length < column_count
    then values ++ List.replicate (column_count - values.length) []
    else values)

end KgtkQuery

/-! ## Theorems -/

namespace KgtkQuery

theorem digitVal_digitChar {n : Nat} (h : n < 10) : digitVal (digitChar n) = n := by
  interval_cases n <;> decide

theorem digitChar_ne_qmark {n : Nat} (h : n < 10) : digitChar n ≠ '?' := by
  interval_cases n <;> decide

theorem decValue_append_singleton (ds : List Char) (c : Char) :
    decValue (ds ++ [c]) = 10 * decValue ds + digitVal c := by
  simp [decValue, List.foldl_append]

theorem decDigitsAux_congr : ∀ {f g n : Nat}, n < f → n < g →
    decDigitsAux f n = decDigitsAux g n := by
  intro f
  induction f with
  | zero => omega
  | succ f ih =>
    intro g n hf hg
    match g, hg with
    | g + 1, _ =>
      simp only [decDigitsAux]
      by_cases h : n < 10
      · simp [h]
      · have hdiv : n / 10 < n := Nat.div_lt_self (by omega) (by omega)
        simp only [h, if_false]
        exact congrArg (· ++ [digitChar (n % 10)])
          (@ih g (n / 10) (by omega) (by omega))

theorem decDigits_eq (n : Nat) :
    decDigits n = if n < 10 then [digitChar n]
      else decDigits (n / 10) ++ [digitChar (n % 10)] := by
  show decDigitsAux (n + 1) n = _
  by_cases h : n < 10
  · simp [decDigitsAux, h]
  · have hdiv : n / 10 < n := Nat.div_lt_self (by omega) (by omega)
    simp only [decDigitsAux, h, if_false]
    exact congrArg (· ++ [digitChar (n % 10)])
      (decDigitsAux_congr (by omega) (by omega))

theorem decValue_decDigits (n : Nat) : decValue (decDigits n) = n := by
  induction n using Nat.strong_induction_on with
  | _ n ih =>
    rw [decDigits_eq]
    by_cases h : n < 10
    · simp only [h, if_true]
      simp [decValue, digitVal_digitChar h]
    · simp only [h, if_false]
      rw [decValue_append_singleton,
        ih (n / 10) (Nat.div_lt_self (by omega) (by omega)),
        digitVal_digitChar (Nat.mod_lt _ (by omega))]
      omega

theorem decDigits_injective {m n : Nat} (h : decDigits m = decDigits n) : m = n := by
  have := decValue_decDigits m
  rw [h, decValue_decDigits] at this
  omega

theorem decDigits_ne_nil (n : Nat) : decDigits n ≠ [] := by
  rw [decDigits_eq]
  by_cases h : n < 10 <;> simp [h]

theorem decDigits_no_qmark (n : Nat) : ∀ c ∈ decDigits n, c ≠ '?' := by
  induction n using Nat.strong_induction_on with
  | _ n ih =>
    rw [decDigits_eq]
    by_cases h : n < 10
    · simp only [h, if_true]
      intro c hc
      simp at hc
      subst hc
      exact digitChar_ne_qmark h
    · simp only [h, if_false]
      intro c hc
      rcases List.mem_append.mp hc with h1 | h2
      · exact ih (n / 10) (Nat.div_lt_self (by omega) (by omega)) c h1
      · simp at h2
        subst h2
        exact digitChar_ne_qmark (Nat.mod_lt _ (by omega))

theorem phTok_injective {m n : Nat} (h : phTok m = phTok n) : m = n := by
  apply decDigits_injective
  have h3 := congrArg (fun l => List.drop 3 l) h
  simp only [phTok, List.drop_succ_cons, List.drop_zero] at h3
  exact List.append_cancel_right h3

theorem splitQQ_qq (rest : List Char) :
    splitQQ ('?' :: '?' :: rest) = ([], (splitQQ rest).1 :: (splitQQ rest).2) := by
  simp [splitQQ]

theorem splitQQ_cons_ne {c1 c2 : Char} (rest : List Char) (h : ¬(c1 = '?' ∧ c2 = '?')) :
    splitQQ (c1 :: c2 :: rest)
      = (c1 :: (splitQQ (c2 :: rest)).1, (splitQQ (c2 :: rest)).2) := by
  rw [splitQQ]
  simp [h]

theorem splitQQ_plain (s rest : List Char) (hs : ∀ c ∈ s, c ≠ '?') :
    splitQQ (s ++ rest) = (s ++ (splitQQ rest).1, (splitQQ rest).2) := by
  induction s with
  | nil => simp
  | cons c s' ih =>
    have hc : c ≠ '?' := hs c (by simp)
    have hs' : ∀ x ∈ s', x ≠ '?' := fun x hx => hs x (by simp [hx])
    rcases hrest : s' ++ rest with _ | ⟨d, tail⟩
    · rcases List.append_eq_nil.mp hrest with ⟨h1, h2⟩
      subst h1
      subst h2
      simp [splitQQ]
    · rw [List.cons_append, hrest, splitQQ_cons_ne tail (fun hh => hc hh.1), ← hrest,
        ih hs']
      simp

theorem splitQQ_phTok (i : Nat) (rest : List Char) :
    splitQQ (phTok i ++ rest)
      = ([], ('?' :: decDigits i) :: (splitQQ rest).1 :: (splitQQ rest).2) := by
  obtain ⟨d, ds, hds⟩ := List.exists_cons_of_ne_nil (decDigits_ne_nil i)
  have hstep1 : phTok i ++ rest
      = '?' :: '?' :: '?' :: (decDigits i ++ '?' :: '?' :: rest) := by
    simp [phTok]
  rw [hstep1, splitQQ_qq]
  have hd : d ≠ '?' := decDigits_no_qmark i d (by rw [hds]; simp)
  have hstep2 : '?' :: (decDigits i ++ '?' :: '?' :: rest)
      = '?' :: d :: (ds ++ '?' :: '?' :: rest) := by
    rw [hds]
    rfl
  rw [hstep2, splitQQ_cons_ne _ (fun hh => hd hh.2)]
  have hstep3 : d :: (ds ++ '?' :: '?' :: rest) = decDigits i ++ ('?' :: '?' :: rest) := by
    rw [hds]
    rfl
  rw [hstep3, splitQQ_plain _ _ (decDigits_no_qmark i), splitQQ_qq]
  simp

theorem foldl_revstep_const (key : List Char) (l : Litmap) (acc : Option Lit)
    (h : ∀ e ∈ l, e.2 ≠ key) :
    l.foldl (fun acc e => if e.2 == key then some e.1 else acc) acc = acc := by
  induction l generalizing acc with
  | nil => rfl
  | cons e tl ih =>
    have he : (e.2 == key) = false := by
      simpa using h e (by simp)
    simp only [List.foldl_cons, he, Bool.false_eq_true, if_false]
    exact ih acc (fun x hx => h x (by simp [hx]))

theorem revLookup_aux (l : Litmap) (off : Nat)
    (hl : ∀ j (h : j < l.length), (l.get ⟨j, h⟩).2 = phTok (off + j)) :
    ∀ (i : Nat) (hi : i < l.length) (acc : Option Lit),
      l.foldl (fun acc e => if e.2 == phTok (off + i) then some e.1 else acc) acc
        = some (l.get ⟨i, hi⟩).1 := by
  induction l generalizing off with
  | nil =>
    intro i hi
    exact absurd hi (by simp)
  | cons e tl ih =>
    intro i hi acc
    have he : e.2 = phTok off := by
      have := hl 0 (by simp)
      simpa using this
    have htl : ∀ j (h : j < tl.length), (tl.get ⟨j, h⟩).2 = phTok (off + 1 + j) := by
      intro j hj
      have := hl (j + 1) (by simpa using Nat.succ_lt_succ hj)
      simp only [List.get_cons_succ] at this
      rw [this]
      congr 1
      omega
    match i with
    | 0 =>
      have heq : (e.2 == phTok (off + 0)) = true := by simp [he]
      simp only [List.foldl_cons, heq, if_true]
      have hnone : ∀ x ∈ tl, x.2 ≠ phTok (off + 0) := by
        intro x hx
        obtain ⟨⟨j, hj⟩, hget⟩ := List.mem_iff_get.mp hx
        rw [← hget, htl j hj]
        intro habs
        have := phTok_injective habs
        omega
      rw [foldl_revstep_const _ _ _ hnone]
      simp
    | i + 1 =>
      have hne : (e.2 == phTok (off + (i + 1))) = false := by
        simp only [beq_eq_false_iff_ne, ne_eq]
        rw [he]
        intro habs
        have := phTok_injective habs
        omega
      simp only [List.foldl_cons, hne, Bool.false_eq_true, if_false]
      have hi' : i < tl.length := by simpa using Nat.lt_of_succ_lt_succ hi
      rw [show off + (i + 1) = off + 1 + i by omega]
      rw [ih (off + 1) htl i hi' acc]
      simp

theorem revLookup_phTok (litmap : Litmap)
    (hwf : ∀ j (h : j < litmap.length), (litmap.get ⟨j, h⟩).2 = phTok j)
    (i : Nat) (hi : i < litmap.length) :
    revLookup litmap (phTok i) = some (litmap.get ⟨i, hi⟩).1 := by
  have := revLookup_aux litmap 0 (fun j h => by simpa using hwf j h) i hi none
  simpa [revLookup] using this

theorem wf_get_literal_parameter {litmap : Litmap} (hwf : WFLitmap litmap) (v : Lit) :
    WFLitmap (get_literal_parameter v litmap).2 := by
  obtain ⟨hidx, hnd⟩ := hwf
  unfold get_literal_parameter
  cases hfind : litmap.find? (fun e => e.1 == v) with
  | some e => exact ⟨hidx, hnd⟩
  | none =>
    constructor
    · intro i h
      by_cases hlt : i < litmap.length
      · rw [List.get_append _ hlt]
        exact hidx i hlt
      · have hlen : i = litmap.length := by
          simp only [List.length_append, List.length_singleton] at h
          omega
        subst hlen
        simp
    · have hv : v ∉ litmap.map Prod.fst := by
        intro hmem
        obtain ⟨e, he, heq⟩ := List.mem_map.mp hmem
        have := List.find?_eq_none.mp hfind e he
        simp [heq] at this
      simp only [List.map_append, List.map_cons, List.map_nil]
      exact List.Nodup.append hnd (by simp) (by
        intro x hx hy
        simp at hy
        subst hy
        exact hv hx)

theorem processTokens_cons_of_not_ph (litmap : Litmap) (t : List Char) (ts : List (List Char))
    (ht : ¬t.head? = some '?') :
    processTokens litmap (t :: ts)
      = (processTokens litmap ts).map (fun qp => (t ++ qp.1, qp.2)) := by
  simp only [processTokens]
  cases h : processTokens litmap ts with
  | none => simp
  | some qp => simp [ht]

theorem processTokens_cons_of_ph (litmap : Litmap) (t : List Char) (ts : List (List Char))
    (lit : Lit) (ht : t.head? = some '?')
    (hlook : revLookup litmap ('?' :: '?' :: t ++ ['?', '?']) = some lit) :
    processTokens litmap (t :: ts)
      = (processTokens litmap ts).map (fun qp => ('?' :: qp.1, lit :: qp.2)) := by
  simp only [processTokens]
  cases h : processTokens litmap ts with
  | none => simp
  | some qp =>
    simp only [ht, if_true]
    rw [hlook]
    rfl

theorem splitQQ_render_fst_no_qmark (litmap : Litmap) (cs : List Chunk)
    (hcs : WFChunks litmap cs) :
    ¬(splitQQ (renderChunks cs)).1.head? = some '?' := by
  induction cs with
  | nil => simp [renderChunks, splitQQ]
  | cons c cs ih =>
    match c with
    | .plain s =>
      simp only [WFChunks] at hcs
      obtain ⟨hplain, hcs'⟩ := hcs
      have hrender : renderChunks (Chunk.plain s :: cs) = s ++ renderChunks cs := by
        simp [renderChunks, Chunk.render]
      rw [hrender, splitQQ_plain _ _ hplain]
      cases s with
      | nil => simpa using ih hcs'
      | cons c0 s' =>
        have : c0 ≠ '?' := hplain c0 (by simp)
        simp [this]
    | .ph i =>
      have hrender : renderChunks (Chunk.ph i :: cs) = phTok i ++ renderChunks cs := by
        simp [renderChunks, Chunk.render]
      rw [hrender, splitQQ_phTok]
      simp

theorem processTokens_renderChunks (litmap : Litmap)
    (hwf : ∀ j (h : j < litmap.length), (litmap.get ⟨j, h⟩).2 = phTok j)
    (cs : List Chunk) (hcs : WFChunks litmap cs) :
    processTokens litmap
        ((splitQQ (renderChunks cs)).1 :: (splitQQ (renderChunks cs)).2)
      = some (finalText cs, textParams litmap cs) := by
  induction cs with
  | nil => simp [renderChunks, splitQQ, processTokens, finalText, textParams]
  | cons c cs ih =>
    match c with
    | .plain s =>
      simp only [WFChunks] at hcs
      obtain ⟨hplain, hcs'⟩ := hcs
      have ih' := ih hcs'
      have hfst := splitQQ_render_fst_no_qmark litmap cs hcs'
      have hrender : renderChunks (Chunk.plain s :: cs) = s ++ renderChunks cs := by
        simp [renderChunks, Chunk.render]
      rw [hrender, splitQQ_plain _ _ hplain]
      have hhead : ¬(s ++ (splitQQ (renderChunks cs)).1).head? = some '?' := by
        cases s with
        | nil => simpa using hfst
        | cons c0 s' =>
          have : c0 ≠ '?' := hplain c0 (by simp)
          simp [this]
      rw [processTokens_cons_of_not_ph _ _ _ hhead]
      rw [processTokens_cons_of_not_ph _ _ _ hfst] at ih'
      cases hts : processTokens litmap (splitQQ (renderChunks cs)).2 with
      | none => rw [hts] at ih'; simp at ih'
      | some qp =>
        rw [hts] at ih'
        simp at ih'
        obtain ⟨h1, h2⟩ := ih'
        simp [finalText, textParams, List.append_assoc, h1, h2]
    | .ph i =>
      simp only [WFChunks] at hcs
      obtain ⟨hi, hcs'⟩ := hcs
      have ih' := ih hcs'
      have hrender : renderChunks (Chunk.ph i :: cs) = phTok i ++ renderChunks cs := by
        simp [renderChunks, Chunk.render]
      rw [hrender, splitQQ_phTok]
      have hkey : '?' :: '?' :: ('?' :: decDigits i) ++ ['?', '?'] = phTok i := by
        simp [phTok]
      have hlook : revLookup litmap ('?' :: '?' :: ('?' :: decDigits i) ++ ['?', '?'])
          = some (litmap.get ⟨i, hi⟩).1 := by
        rw [hkey]
        exact revLookup_phTok litmap hwf i hi
      rw [processTokens_cons_of_not_ph _ _ _ (by simp)]
      rw [processTokens_cons_of_ph _ _ _ _ (by simp) hlook]
      rw [ih']
      simp [finalText, textParams, List.getElem?_eq_getElem hi]

theorem wf_foldl_intern (m : Litmap) (hm : WFLitmap m) (vals : List Lit) :
    WFLitmap (vals.foldl (fun m v => (get_literal_parameter v m).2) m) := by
  induction vals generalizing m with
  | nil => exact hm
  | cons v vs ih => exact ih _ (wf_get_literal_parameter hm v)

theorem wf_internAll (vals : List Lit) : WFLitmap (internAll vals) :=
  wf_foldl_intern [] ⟨fun i h => by simp at h, by simp⟩ vals

theorem textParams_length (litmap : Litmap) (cs : List Chunk) (hcs : WFChunks litmap cs) :
    (textParams litmap cs).length = countQ (finalText cs) := by
  induction cs with
  | nil => simp [textParams, finalText, countQ]
  | cons c cs ih =>
    match c with
    | .plain s =>
      simp only [WFChunks] at hcs
      obtain ⟨hplain, hcs'⟩ := hcs
      have hzero : countQ s = 0 := by
        rw [countQ, List.countP_eq_zero]
        intro a ha
        simpa using hplain a ha
      simp only [textParams, finalText, countQ, List.countP_append] at *
      rw [ih hcs']
      omega
    | .ph i =>
      simp only [WFChunks] at hcs
      obtain ⟨hi, hcs'⟩ := hcs
      simp only [textParams, finalText, List.get?_eq_getElem?, List.getElem?_eq_getElem hi]
      simp only [countQ, List.countP_cons] at *
      rw [List.length_cons, ih hcs']
      simp

/-- C1: for every literal map built by a sequence of intern calls and every
staged query text whose placeholder occurrences are exactly tokens minted by
that map, the materialize pass returns the text with each placeholder
occurrence replaced by a single question mark, together with the positional
parameter list holding the literal value of each placeholder occurrence in
text order (one entry per occurrence), whose length equals the number of
question marks emitted into the final text. -/
theorem C1_replace_literal_parameters (vals : List Lit) (litmap : Litmap)
    (hmap : litmap = internAll vals) (cs : List Chunk) (hcs : WFChunks litmap cs) :
    replace_literal_parameters (renderChunks cs) litmap
        = some (finalText cs, textParams litmap cs) ∧
      (textParams litmap cs).length = countQ (finalText cs) := by
  have hwf := wf_internAll vals
  rw [← hmap] at hwf
  exact ⟨processTokens_renderChunks litmap hwf.1 cs hcs, textParams_length litmap cs hcs⟩

theorem C1_witness :
    replace_literal_parameters
        (renderChunks [Chunk.plain ['S'], Chunk.ph 0, Chunk.ph 0])
        (internAll [['a']])
      = some (finalText [Chunk.plain ['S'], Chunk.ph 0, Chunk.ph 0],
          textParams (internAll [['a']]) [Chunk.plain ['S'], Chunk.ph 0, Chunk.ph 0]) ∧
      (textParams (internAll [['a']]) [Chunk.plain ['S'], Chunk.ph 0, Chunk.ph 0]).length
        = countQ (finalText [Chunk.plain ['S'], Chunk.ph 0, Chunk.ph 0]) :=
  C1_replace_literal_parameters [['a']] _ rfl _ ⟨by decide, by decide, by decide, trivial⟩

example :
    replace_literal_parameters
        (renderChunks [Chunk.plain ['S'], Chunk.ph 0, Chunk.ph 0]) (internAll [['a']])
      = some (['S', '?', '?'], [['a'], ['a']]) := by decide

theorem find?_key_of_mem {litmap : Litmap} (hnd : (litmap.map Prod.fst).Nodup)
    {lit : Lit} {tok : List Char} (hmem : (lit, tok) ∈ litmap) :
    litmap.find? (fun e => e.1 == lit) = some (lit, tok) := by
  induction litmap with
  | nil => simp at hmem
  | cons e tl ih =>
    simp only [List.map_cons, List.nodup_cons] at hnd
    rcases List.mem_cons.mp hmem with heq | hmem'
    · subst heq
      simp [List.find?]
    · have hlit : lit ∈ tl.map Prod.fst := List.mem_map.mpr ⟨(lit, tok), hmem', rfl⟩
      have hne : (e.1 == lit) = false := by
        simp only [beq_eq_false_iff_ne, ne_eq]
        intro heq
        rw [heq] at hnd
        exact hnd.1 hlit
      rw [List.find?_cons_of_neg _ (by simp [hne])]
      exact ih hnd.2 hmem'

theorem wf_distinct_tokens {litmap : Litmap} (hwf : WFLitmap litmap) :
    ∀ l1 t1 l2 t2, (l1, t1) ∈ litmap → (l2, t2) ∈ litmap → l1 ≠ l2 → t1 ≠ t2 := by
  obtain ⟨hidx, _⟩ := hwf
  intro l1 t1 l2 t2 h1 h2 hne habs
  obtain ⟨⟨i, hi⟩, hg1⟩ := List.mem_iff_get.mp h1
  obtain ⟨⟨j, hj⟩, hg2⟩ := List.mem_iff_get.mp h2
  have ht1 : t1 = phTok i := by
    have := hidx i hi
    rw [hg1] at this
    exact this
  have ht2 : t2 = phTok j := by
    have := hidx j hj
    rw [hg2] at this
    exact this
  have hij : i = j := phTok_injective (ht1 ▸ ht2 ▸ habs)
  subst hij
  rw [hg1] at hg2
  exact hne (congrArg Prod.fst hg2)

/-- C8: interning is idempotent and deterministic: calling
`get_literal_parameter` with a value equal to a previously interned value
returns the same placeholder token and leaves the map unchanged; a
first-time value mints `???N??` where `N` is the map size immediately
before the insertion; and distinct values receive distinct tokens. -/
theorem C8_get_literal_parameter (vals : List Lit) (litmap : Litmap)
    (hmap : litmap = internAll vals) (lit : Lit) :
    (∀ tok, (lit, tok) ∈ litmap → get_literal_parameter lit litmap = (tok, litmap)) ∧
    (lit ∉ litmap.map Prod.fst →
      get_literal_parameter lit litmap
        = (phTok litmap.length, litmap ++ [(lit, phTok litmap.length)])) ∧
    (∀ l1 t1 l2 t2, (l1, t1) ∈ (get_literal_parameter lit litmap).2 →
      (l2, t2) ∈ (get_literal_parameter lit litmap).2 → l1 ≠ l2 → t1 ≠ t2) := by
  have hwf : WFLitmap litmap := hmap ▸ wf_internAll vals
  refine ⟨?_, ?_, ?_⟩
  · intro tok hmem
    unfold get_literal_parameter
    rw [find?_key_of_mem hwf.2 hmem]
  · intro hnotin
    have hnone : litmap.find? (fun e => e.1 == lit) = none := by
      rw [List.find?_eq_none]
      intro e he
      simp only [beq_eq_false_iff_ne, ne_eq, Bool.not_eq_true]
      intro heq
      exact hnotin (List.mem_map.mpr ⟨e, he, by simpa using heq⟩)
    unfold get_literal_parameter
    rw [hnone]
  · exact wf_distinct_tokens (wf_get_literal_parameter hwf lit)

theorem C8_witness :
    get_literal_parameter ['a'] (internAll [['a'], ['b']])
        = (phTok 0, internAll [['a'], ['b']]) ∧
    get_literal_parameter ['c'] (internAll [['a'], ['b']])
        = (phTok (internAll [['a'], ['b']]).length,
            internAll [['a'], ['b']] ++ [(['c'], phTok (internAll [['a'], ['b']]).length)]) :=
  ⟨(C8_get_literal_parameter [['a'], ['b']] _ rfl ['a']).1 (phTok 0) (by decide),
    (C8_get_literal_parameter [['a'], ['b']] _ rfl ['c']).2.1 (by decide)⟩

/-! ### Variable binding map -/

theorem char_eq_of_toNat_eq {a b : Char} (h : a.toNat = b.toNat) : a = b := by
  apply Char.eq_of_val_eq
  apply UInt32.eq_of_toBitVec_eq
  apply BitVec.eq_of_toNat_eq
  exact h

theorem strLtB_irrefl (s : List Char) : strLtB s s = false := by
  induction s with
  | nil => rfl
  | cons a s ih => simp [strLtB, ih]

theorem strLtB_asymm : ∀ {s t : List Char}, strLtB s t = true → strLtB t s = false
  | [], [], h => by simp [strLtB] at h
  | [], _ :: _, _ => rfl
  | _ :: _, [], h => by simp [strLtB] at h
  | a :: s', b :: t', h => by
    simp only [strLtB] at h ⊢
    by_cases h1 : a.toNat < b.toNat
    · have h2 : ¬b.toNat < a.toNat := by omega
      simp [h1, h2]
    · by_cases h2 : b.toNat < a.toNat
      · simp [h1, h2] at h
      · simp only [h1, h2, if_false] at h ⊢
        exact strLtB_asymm h

theorem strLtB_eq_of_both_false :
    ∀ {s t : List Char}, strLtB s t = false → strLtB t s = false → s = t
  | [], [], _, _ => rfl
  | [], _ :: _, h, _ => by simp [strLtB] at h
  | _ :: _, [], _, h => by simp [strLtB] at h
  | a :: s', b :: t', h1, h2 => by
    by_cases hab : a.toNat < b.toNat
    · simp [strLtB, hab] at h1
    · by_cases hba : b.toNat < a.toNat
      · simp [strLtB, hba] at h2
      · have hchar : a = b := char_eq_of_toNat_eq (by omega)
        subst hchar
        simp only [strLtB, hab, if_false] at h1 h2
        rw [strLtB_eq_of_both_false h1 h2]

theorem tupLtB_ne {x y : SqlVar} (h : tupLtB x y = true) : x ≠ y := by
  intro heq
  subst heq
  simp [tupLtB, strLtB_irrefl] at h

theorem tupLtB_asymm {x y : SqlVar} (h : tupLtB x y = true) : tupLtB y x = false := by
  unfold tupLtB at *
  by_cases he : x.1 = y.1
  · simp only [he, beq_self_eq_true, if_true] at h ⊢
    exact strLtB_asymm h
  · have he1 : (x.1 == y.1) = false := by simpa using he
    have he2 : (y.1 == x.1) = false := by
      simp only [beq_eq_false_iff_ne, ne_eq]
      exact fun hh => he hh.symm
    simp only [he1, he2, Bool.false_eq_true, if_false] at h ⊢
    exact strLtB_asymm h

theorem tupLtB_total {x y : SqlVar} (hne : x ≠ y) (h1 : tupLtB x y = false) :
    tupLtB y x = true := by
  unfold tupLtB at *
  by_cases he : x.1 = y.1
  · simp only [he, beq_self_eq_true, if_true] at h1 ⊢
    by_cases hc : strLtB y.2.data x.2.data = true
    · exact hc
    · exfalso
      have hdata : x.2.data = y.2.data :=
        strLtB_eq_of_both_false h1 (by simpa using hc)
      have hcol : x.2 = y.2 := by
        cases hx : x.2
        cases hy : y.2
        rw [hx, hy] at hdata
        exact congrArg String.mk hdata
      exact hne (Prod.ext he hcol)
  · have he1 : (x.1 == y.1) = false := by simpa using he
    have he2 : (y.1 == x.1) = false := by
      simp only [beq_eq_false_iff_ne, ne_eq]
      exact fun hh => he hh.symm
    simp only [he1, he2, Bool.false_eq_true, if_false] at h1 ⊢
    by_cases hc : strLtB y.1.data x.1.data = true
    · exact hc
    · exfalso
      have hdata : x.1.data = y.1.data :=
        strLtB_eq_of_both_false h1 (by simpa using hc)
      apply he
      cases hx : x.1
      cases hy : y.1
      rw [hx, hy] at hdata
      exact congrArg String.mk hdata

theorem sortPair_lt {x y : SqlVar} (h : x ≠ y) :
    tupLtB (sortPair x y).1 (sortPair x y).2 = true := by
  unfold sortPair
  by_cases hyx : tupLtB y x = true
  · rw [if_pos hyx]
    exact hyx
  · have h1 : tupLtB y x = false := by simpa using hyx
    rw [if_neg (by simp [h1])]
    exact tupLtB_total (fun he => h he.symm) h1

theorem register_preserves_canonical {qv : String} {sv : SqlVar}
    {vm : Varmap} {js : Joins} {vm' : Varmap} {js' : Joins}
    (h : register_clause_variable qv sv vm js = some (vm', js'))
    (hc : ∀ p ∈ js, tupLtB p.1 p.2 = true) : ∀ p ∈ js', tupLtB p.1 p.2 = true := by
  unfold register_clause_variable at h
  split at h
  · simp at h
    rw [← h.2]
    exact hc
  · split at h
    · exact absurd h (by simp)
    · rename_i sql_vars _ best hbest
      split at h
      · rename_i hne
        simp at h
        rw [← h.2]
        intro p hp
        unfold setAdd at hp
        split at hp
        · exact hc p hp
        · rcases List.mem_append.mp hp with hp1 | hp2
          · exact hc p hp1
          · simp at hp2
            rw [hp2]
            exact sortPair_lt (fun he => hne he.symm)
      · simp at h
        rw [← h.2]
        exact hc

theorem runRegisters_canonical (ops : List (String × SqlVar)) :
    ∀ vm js vm' js', (∀ p ∈ js, tupLtB p.1 p.2 = true) →
      runRegisters ops vm js = some (vm', js') → ∀ p ∈ js', tupLtB p.1 p.2 = true := by
  induction ops with
  | nil =>
    intro vm js vm' js' hc h
    simp only [runRegisters] at h
    simp at h
    rw [← h.2]
    exact hc
  | cons op ops ih =>
    intro vm js vm' js' hc h
    obtain ⟨qv, sv⟩ := op
    simp only [runRegisters] at h
    cases hr : register_clause_variable qv sv vm js with
    | none => rw [hr] at h; simp at h
    | some st =>
      rw [hr] at h
      obtain ⟨vm1, js1⟩ := st
      exact ih vm1 js1 vm' js' (register_preserves_canonical hr hc) h

/-- C4: after any sequence of register_clause_variable calls starting from
the empty state, every pair in the join set is strictly increasing under
the canonical lexicographic ordering; the join set contains no reflexive
pair and never both a pair and its flip. -/
theorem C4_joins_canonical (ops : List (String × SqlVar)) (vm : Varmap) (js : Joins)
    (h : runRegisters ops [] [] = some (vm, js)) :
    (∀ p ∈ js, tupLtB p.1 p.2 = true) ∧ (∀ p ∈ js, p.1 ≠ p.2) ∧
      (∀ a b, (a, b) ∈ js → (b, a) ∉ js) := by
  have hc : ∀ p ∈ js, tupLtB p.1 p.2 = true :=
    runRegisters_canonical ops [] [] vm js (by simp) h
  refine ⟨hc, fun p hp => tupLtB_ne (hc p hp), fun a b hab hba => ?_⟩
  have h1 := hc (a, b) hab
  have h2 := hc (b, a) hba
  rw [tupLtB_asymm h1] at h2
  exact Bool.false_ne_true h2

theorem bestVarLoop_some (g : String) (b : SqlVar) (l : List SqlVar) :
    bestVarLoop g (some b) l
      = some (match l.find? (fun r => r.1 == g) with
              | some m => m
              | none => l.getLast?.getD b) := by
  induction l generalizing b with
  | nil => simp [bestVarLoop]
  | cons x rest ih =>
    by_cases hx : x.1 = g
    · simp only [bestVarLoop, hx, if_true]
      rw [List.find?_cons_of_pos _ (by simp [hx])]
    · simp only [bestVarLoop, hx, if_false]
      rw [ih x, List.find?_cons_of_neg _ (by simp [hx])]
      cases rest with
      | nil => simp
      | cons y rest' =>
        rw [List.getLast?_cons_cons]
        cases hf : List.find? (fun r => r.1 == g) (y :: rest') with
        | some m => rfl
        | none =>
          rw [List.getLast?_eq_getLast (y :: rest') (by simp)]
          simp

/-- C2 (amended): in register_clause_variable, the best-reference scan
takes the first existing reference unconditionally; from the second
reference on it stops at the first reference sharing the new alias; if no
reference after the first shares the alias, the partner is the last
iterated existing reference. -/
theorem C2_best_reference (g : String) (v0 : SqlVar) (rest : List SqlVar) :
    (∀ m, rest.find? (fun r => r.1 == g) = some m →
        bestVarLoop g none (v0 :: rest) = some m) ∧
    (rest.find? (fun r => r.1 == g) = none →
        bestVarLoop g none (v0 :: rest) = some (rest.getLast?.getD v0)) := by
  have hstep : bestVarLoop g none (v0 :: rest) = bestVarLoop g (some v0) rest := by
    simp [bestVarLoop]
  rw [hstep, bestVarLoop_some]
  constructor
  · intro m hm
    rw [hm]
  · intro hnone
    rw [hnone]

theorem C2_counterexample :
    bestVarLoop "g1" none [(("g1", "node1") : SqlVar), ("g2", "node1")]
        = some ("g2", "node1") ∧
      (("g1", "node1") : SqlVar) ∈ [(("g1", "node1") : SqlVar), ("g2", "node1")] ∧
      (("g1", "node1") : SqlVar).1 = "g1" ∧
      (("g2", "node1") : SqlVar).1 ≠ "g1" := by decide

theorem C2_witness :
    bestVarLoop "g1" none [(("g1", "c1") : SqlVar), ("g2", "c2"), ("g1", "c3")]
        = some ("g1", "c3") ∧
      bestVarLoop "g1" none [(("g1", "c1") : SqlVar), ("g2", "c2")]
        = some ("g2", "c2") :=
  ⟨(C2_best_reference "g1" ("g1", "c1") [("g2", "c2"), ("g1", "c3")]).1
      ("g1", "c3") (by decide),
    by
      have h := (C2_best_reference "g1" ("g1", "c1") [("g2", "c2")]).2 (by decide)
      simpa using h⟩

theorem aupdate_not_mem (m : Varmap) (k : String) (v : List SqlVar)
    (h : k ∉ m.map Prod.fst) : aupdate m k v = m := by
  induction m with
  | nil => rfl
  | cons e tl ih =>
    simp only [List.map_cons, List.mem_cons, not_or] at h
    unfold aupdate
    simp only [List.map_cons]
    rw [if_neg (by simp; exact fun hh => h.1 hh.symm)]
    have := ih h.2
    unfold aupdate at this
    rw [this]

theorem aupdate_self {m : Varmap} (hnd : (m.map Prod.fst).Nodup) {k : String}
    {refs : List SqlVar} (h : alookup m k = some refs) : aupdate m k refs = m := by
  induction m with
  | nil => simp [alookup] at h
  | cons e tl ih =>
    simp only [List.map_cons, List.nodup_cons] at hnd
    by_cases he : e.1 = k
    · have hfind : alookup (e :: tl) k = some e.2 := by
        unfold alookup
        rw [List.find?_cons_of_pos _ (by simp [he])]
        rfl
      rw [hfind] at h
      have hrefs : refs = e.2 := by simpa using h.symm
      subst hrefs
      unfold aupdate
      simp only [List.map_cons]
      rw [if_pos (by simp [he])]
      have htl : aupdate tl k e.2 = tl := aupdate_not_mem tl k e.2 (he ▸ hnd.1)
      unfold aupdate at htl
      rw [htl]
    · have hfind : alookup (e :: tl) k = alookup tl k := by
        unfold alookup
        rw [List.find?_cons_of_neg _ (by simp [he])]
      rw [hfind] at h
      unfold aupdate
      simp only [List.map_cons]
      rw [if_neg (by simp [he])]
      have := ih hnd.2 h
      unfold aupdate at this
      rw [this]

/-- C3 (amended): registering an (alias, column) reference already present
in the variable reference set leaves varmap unchanged; joins is unchanged
exactly when the best-reference scan returns that same reference — in
particular when the set is the singleton of it — and otherwise joins gains
the canonical pair of the scanned best reference and the re-registered
reference. -/
theorem C3_register_existing (qv : String) (sv : SqlVar) (vm : Varmap) (js : Joins)
    (hnd : (vm.map Prod.fst).Nodup) (refs : List SqlVar)
    (hl : alookup vm qv = some refs) (hmem : sv ∈ refs) :
    (∀ best, bestVarLoop sv.1 none refs = some best →
        register_clause_variable qv sv vm js
          = some (vm, if sv = best then js else setAdd js (sortPair best sv))) ∧
    (refs = [sv] → register_clause_variable qv sv vm js = some (vm, js)) := by
  have hset : setAdd refs sv = refs := by
    unfold setAdd
    have hc : refs.contains sv = true := by
      rw [List.contains_iff_exists_mem_beq]
      exact ⟨sv, hmem, by simp⟩
    rw [if_pos hc]
  have hunfold : register_clause_variable qv sv vm js
      = match bestVarLoop sv.1 none refs with
        | none => none
        | some best_var =>
          if sv ≠ best_var then
            some (aupdate vm qv (setAdd refs sv), setAdd js (sortPair best_var sv))
          else some (vm, js) := by
    unfold register_clause_variable
    rw [hl]
  have hmain : ∀ best, bestVarLoop sv.1 none refs = some best →
      register_clause_variable qv sv vm js
        = some (vm, if sv = best then js else setAdd js (sortPair best sv)) := by
    intro best hbest
    rw [hunfold]
    simp only [hbest]
    by_cases hne : sv = best
    · rw [if_neg (by simpa using hne), if_pos hne]
    · rw [if_pos hne, if_neg hne, hset, aupdate_self hnd hl]
  refine ⟨hmain, fun hrefs => ?_⟩
  subst hrefs
  have hbest : bestVarLoop sv.1 none [sv] = some sv := by simp [bestVarLoop]
  have := hmain sv hbest
  rw [if_pos rfl] at this
  exact this

theorem C3_counterexample :
    register_clause_variable "a" ("g1", "node1")
        [("a", [("g1", "node1"), ("g2", "node1")])] []
      = some ([("a", [("g1", "node1"), ("g2", "node1")])],
          [(("g1", "node1"), ("g2", "node1"))]) ∧
      (("g1", "node1") : SqlVar) ∈ [(("g1", "node1") : SqlVar), ("g2", "node1")] ∧
      ([(("g1", "node1"), ("g2", "node1"))] : Joins) ≠ [] := by decide

theorem C3_witness :
    register_clause_variable "a" ("g1", "node1")
        [("a", [("g1", "node1"), ("g2", "node1")])] []
      = some ([("a", [("g1", "node1"), ("g2", "node1")])],
          if (("g1", "node1") : SqlVar) = ("g2", "node1") then []
          else setAdd [] (sortPair ("g2", "node1") ("g1", "node1"))) ∧
    register_clause_variable "b" ("g1", "node1") [("b", [("g1", "node1")])] []
      = some ([("b", [("g1", "node1")])], []) :=
  ⟨(C3_register_existing "a" ("g1", "node1")
        [("a", [("g1", "node1"), ("g2", "node1")])] [] (by decide)
        [("g1", "node1"), ("g2", "node1")] rfl (by decide)).1
      ("g2", "node1") (by decide),
    (C3_register_existing "b" ("g1", "node1") [("b", [("g1", "node1")])] []
        (by decide) [("g1", "node1")] rfl (by decide)).2 rfl⟩

/-! ### Graph-handle resolver -/

theorem mapHandleLoop_eq_find? (handle base : List Char)
    (hmap : List (List Char × List Char)) (mapped : List (List Char))
    (files : List (List Char)) :
    mapHandleLoop handle base hmap mapped files
      = match files.find? (fun f => !mapped.contains f
            && (f == handle || (isInfixB handle (basename f)
              || isInfixB base (basename f)))) with
        | some f => some (f, hmap ++ [(handle, f)])
        | none => none := by
  induction files with
  | nil => rfl
  | cons file rest ih =>
    by_cases hm : mapped.contains file
    · simp only [mapHandleLoop, hm, if_true]
      rw [ih, List.find?_cons_of_neg _ (by
        simp only [hm, Bool.not_true, Bool.false_and]
        exact Bool.false_ne_true)]
    · have hm' : mapped.contains file = false := by simpa using hm
      by_cases he : (file == handle) = true
      · simp only [mapHandleLoop, hm', Bool.false_eq_true, if_false, he, if_true]
        rw [List.find?_cons_of_pos _ (by
          simp only [hm', he, Bool.not_false, Bool.true_or, Bool.true_and])]
      · have he' : (file == handle) = false := by simpa using he
        by_cases hin : (isInfixB handle (basename file)
            || isInfixB base (basename file)) = true
        · simp only [mapHandleLoop, hm', Bool.false_eq_true, if_false, he',
            hin, if_true]
          rw [List.find?_cons_of_pos _ (by
            simp only [hm', he', hin, Bool.not_false, Bool.false_or, Bool.true_and])]
        · have hin' : (isInfixB handle (basename file)
              || isInfixB base (basename file)) = false := by simpa using hin
          simp only [mapHandleLoop, hm', Bool.false_eq_true, if_false, he', hin']
          rw [ih, List.find?_cons_of_neg _ (by
            simp only [hm', he', hin', Bool.not_false, Bool.false_or, Bool.true_and]
            exact Bool.false_ne_true)]

/-- C5 (amended): for a non-memoized handle the resolver scans the
registered files in order, skipping files already mapped, and returns
(memoizing it) the first file that either equals the handle as a full
path or whose basename contains the handle or the base handle as a
substring; full-path equality is preferred only within each file in turn,
not across all files; if no file matches, resolution fails. -/
theorem C5_map_graph_handle (files : List (List Char))
    (hmap : List (List Char × List Char)) (handle : List Char)
    (hmemo : hmap.find? (fun e => e.1 == handle) = none) :
    map_graph_handle_to_file files hmap handle
      = match files.find? (fun f => !(hmap.map Prod.snd).contains f
            && (f == handle || (isInfixB handle (basename f)
              || isInfixB (baseHandle handle) (basename f)))) with
        | some f => some (f, hmap ++ [(handle, f)])
        | none => none := by
  unfold map_graph_handle_to_file
  rw [hmemo]
  exact mapHandleLoop_eq_find? handle (baseHandle handle) hmap (hmap.map Prod.snd) files

theorem C5_counterexample :
    map_graph_handle_to_file [['a', 'b'], ['b']] [] ['b']
        = some (['a', 'b'], [(['b'], ['a', 'b'])]) ∧
      (['b'] : List Char) ∈ [['a', 'b'], ['b']] ∧
      (['a', 'b'] : List Char) ≠ ['b'] := by decide

theorem C5_witness :
    map_graph_handle_to_file [['a', 'b'], ['b']] [] ['b']
      = match [['a', 'b'], ['b']].find? (fun f =>
            !(([] : List (List Char × List Char)).map Prod.snd).contains f
            && (f == ['b'] || (isInfixB ['b'] (basename f)
              || isInfixB (baseHandle ['b']) (basename f)))) with
        | some f => some (f, [] ++ [(['b'], f)])
        | none => none :=
  C5_map_graph_handle [['a', 'b'], ['b']] [] ['b'] rfl

theorem C4_witness :
    (∀ p ∈ [((("g1", "node1") : SqlVar), (("g2", "node1") : SqlVar))],
        tupLtB p.1 p.2 = true) ∧
      (∀ p ∈ [((("g1", "node1") : SqlVar), (("g2", "node1") : SqlVar))], p.1 ≠ p.2) ∧
      (∀ a b, (a, b) ∈ [((("g1", "node1") : SqlVar), (("g2", "node1") : SqlVar))] →
        (b, a) ∉ [((("g1", "node1") : SqlVar), (("g2", "node1") : SqlVar))]) :=
  C4_joins_canonical [("a", ("g1", "node1")), ("a", ("g2", "node1"))]
    [("a", [("g1", "node1"), ("g2", "node1")])]
    [(("g1", "node1"), ("g2", "node1"))] (by decide)

/-! ### Expression translator -/

theorem expressions_var_fails (st : Store) (qparams : List (String × Lit))
    (name : String) :
    ∀ (elements : List Expr) (litmap : Litmap), Expr.Variable name ∈ elements →
      ∃ err, expressions_to_sql st qparams elements litmap none = .error err := by
  intro elements
  induction elements with
  | nil =>
    intro litmap h
    simp at h
  | cons e es ih =>
    intro litmap hmem
    rcases List.mem_cons.mp hmem with heq | hmem1
    · subst heq
      refine ⟨QErr.illegalContext name, ?_⟩
      simp [expressions_to_sql, expression_to_sql]
    · cases ht : expression_to_sql st qparams e litmap none with
      | error err => exact ⟨err, by simp [expressions_to_sql, ht]⟩
      | ok r =>
        obtain ⟨t, lm1⟩ := r
        obtain ⟨err, herr⟩ := ih lm1 hmem1
        exact ⟨err, by simp [expressions_to_sql, ht, herr]⟩

/-- C9: a Variable expression translated where the variable map is forced
absent fails with the illegal-context error and produces no relational
text; the List translation forces the variable map absent for its
elements, so a List with a Variable element fails; the LIMIT and SKIP
expressions are translated with the variable map forced absent, so a
Variable there fails with the illegal-context error. -/
theorem C9_illegal_variable_context (st : Store) (qparams : List (String × Lit)) :
    (∀ name litmap, expression_to_sql st qparams (Expr.Variable name) litmap none
        = .error (QErr.illegalContext name)) ∧
    (∀ elements name litmap varmap, Expr.Variable name ∈ elements →
      ∃ err, expression_to_sql st qparams (Expr.ListE elements) litmap varmap
        = .error err) ∧
    (∀ name skip_clause litmap varmap,
      limit_clauses_to_sql st qparams skip_clause (some (Expr.Variable name))
          litmap varmap
        = .error (QErr.illegalContext name)) ∧
    (∀ name litmap varmap,
      limit_clauses_to_sql st qparams (some (Expr.Variable name)) none litmap varmap
        = .error (QErr.illegalContext name)) := by
  refine ⟨?_, ?_, ?_, ?_⟩
  · intro name litmap
    simp [expression_to_sql]
  · intro elements name litmap varmap hmem
    obtain ⟨err, herr⟩ := expressions_var_fails st qparams name elements litmap hmem
    exact ⟨err, by simp [expression_to_sql, herr]⟩
  · intro name skip_clause litmap varmap
    cases skip_clause <;> simp [limit_clauses_to_sql, expression_to_sql]
  · intro name litmap varmap
    simp [limit_clauses_to_sql, limitSkipPart, expression_to_sql]

theorem C9_witness :
    expression_to_sql emptyStore [] (Expr.Variable "x") [] none
        = .error (QErr.illegalContext "x") ∧
      (∃ err, expression_to_sql emptyStore []
          (Expr.ListE [Expr.Literal ['1'], Expr.Variable "x"]) [] (some [])
        = .error err) ∧
      limit_clauses_to_sql emptyStore [] none (some (Expr.Variable "n")) [] (some [])
        = .error (QErr.illegalContext "n") ∧
      limit_clauses_to_sql emptyStore [] (some (Expr.Variable "n")) none [] (some [])
        = .error (QErr.illegalContext "n") :=
  ⟨(C9_illegal_variable_context emptyStore []).1 "x" [],
    (C9_illegal_variable_context emptyStore []).2.1
      [Expr.Literal ['1'], Expr.Variable "x"] "x" [] (some []) (by simp),
    (C9_illegal_variable_context emptyStore []).2.2.1 "n" none [] (some []),
    (C9_illegal_variable_context emptyStore []).2.2.2 "n" [] (some [])⟩

theorem chainLoop_cons_prop (st : Store) (v : List Char) (p : String)
    (rest : List ChainElt) :
    chainLoop st v (ChainElt.propertyLookup p :: rest)
      = chainLoop st (specPropStep st v p) rest := by
  simp only [chainLoop, specPropStep]
  by_cases h1 : (is_kgtk_operator p && st.is_user_function p) = true
  · rw [if_pos h1, if_pos h1]
  · rw [if_neg h1, if_neg h1]
    by_cases h2 : endsWithIdColumn v = true
    · rw [if_pos h2, if_pos h2]
    · rw [if_neg h2, if_neg h2]

theorem chainLoop_props (st : Store) :
    ∀ (props : List String) (v : List Char),
      chainLoop st v (props.map ChainElt.propertyLookup)
        = some (props.foldl (specPropStep st) v) := by
  intro props
  induction props with
  | nil => intro v; rfl
  | cons p ps ih =>
    intro v
    simp only [List.map_cons, List.foldl_cons]
    rw [chainLoop_cons_prop, ih]

theorem chainLoop_other (st : Store) :
    ∀ (chain : List ChainElt) (v : List Char), ChainElt.otherChain ∈ chain →
      chainLoop st v chain = none := by
  intro chain
  induction chain with
  | nil =>
    intro v h
    simp at h
  | cons c rest ih =>
    intro v hmem
    match c with
    | ChainElt.otherChain => rfl
    | ChainElt.propertyLookup p =>
      have hmem1 : ChainElt.otherChain ∈ rest := by
        rcases List.mem_cons.mp hmem with h | h
        · exact absurd h (by simp)
        · exact h
      rw [chainLoop_cons_prop]
      exact ih _ hmem1

/-- C6: translating a property lookup folds over the chain starting from
the variable emission: a property naming a registered KGTK user function
wraps the emission in a call; otherwise an emission ending in `."id"`
(case-insensitively) has the id portion replaced by the property name;
otherwise the trailing quote becomes `;prop"`, a wide-column reference; a
chain element that is not a property lookup makes compilation fail. -/
theorem C6_property_lookup (st : Store) (qparams : List (String × Lit))
    (name : String) (vm : Varmap) (litmap : Litmap) (gc : SqlVar)
    (refs : List SqlVar) (hname : name ≠ "*")
    (hlook : alookup vm name = some refs) (hhead : refs.head? = some gc) :
    (∀ props : List String,
      expression_to_sql st qparams
          (Expr.Expression2 (Expr.Variable name) (props.map ChainElt.propertyLookup))
          litmap (some vm)
        = .ok (props.foldl (specPropStep st)
            (gc.1.data ++ '.' :: sql_quote_ident gc.2), litmap)) ∧
    (∀ chain : List ChainElt, ChainElt.otherChain ∈ chain →
      expression_to_sql st qparams (Expr.Expression2 (Expr.Variable name) chain)
          litmap (some vm)
        = .error QErr.unhandledPropLookup) := by
  have hvar : expression_to_sql st qparams (Expr.Variable name) litmap (some vm)
      = .ok (gc.1.data ++ '.' :: sql_quote_ident gc.2, litmap) := by
    simp [expression_to_sql, hname, hlook, hhead]
  constructor
  · intro props
    simp [expression_to_sql, hname, hlook, hhead, chainLoop_props]
  · intro chain hmem
    simp [expression_to_sql, hname, hlook, hhead, chainLoop_other st chain _ hmem]

theorem C6_witness :
    expression_to_sql emptyStore []
        (Expr.Expression2 (Expr.Variable "r2")
          (["label"].map ChainElt.propertyLookup)) []
        (some [("r2", [("graph_1_c2", "id")])])
      = .ok (["label"].foldl (specPropStep emptyStore)
          (("graph_1_c2" : String).data ++ '.' :: sql_quote_ident "id"), []) ∧
    expression_to_sql emptyStore []
        (Expr.Expression2 (Expr.Variable "r2") [ChainElt.otherChain]) []
        (some [("r2", [("graph_1_c2", "id")])])
      = .error QErr.unhandledPropLookup :=
  ⟨(C6_property_lookup emptyStore [] "r2" [("r2", [("graph_1_c2", "id")])] []
      ("graph_1_c2", "id") [("graph_1_c2", "id")] (by decide) rfl rfl).1 ["label"],
    (C6_property_lookup emptyStore [] "r2" [("r2", [("graph_1_c2", "id")])] []
      ("graph_1_c2", "id") [("graph_1_c2", "id")] (by decide) rfl rfl).2
      [ChainElt.otherChain] (by simp)⟩

/-! ### Edge reader -/

/-- C10: with fill_missing_columns and prohibit_extra_columns set, every
record the reader returns has exactly column_count fields: records with
extra fields raise before returning, and records with fewer fields are
padded with empty strings up to column_count. -/
theorem C10_edge_reader_next (require_all : Bool) (column_count : Nat)
    (sep : Char) (line : List Char) :
    (∀ vs, edgeReaderNext require_all true true column_count sep line = some vs →
        vs.length = column_count) ∧
    ((line.splitOn sep).length > column_count →
      edgeReaderNext require_all true true column_count sep line = none) ∧
    ((line.splitOn sep).length < column_count → require_all = false →
      edgeReaderNext require_all true true column_count sep line
        = some (line.splitOn sep
            ++ List.replicate (column_count - (line.splitOn sep).length) [])) := by
  refine ⟨?_, ?_, ?_⟩
  · intro vs hvs
    unfold edgeReaderNext at hvs
    by_cases h1 : require_all = true ∧ (line.splitOn sep).length < column_count
    · rw [if_pos h1] at hvs
      simp at hvs
    · rw [if_neg h1] at hvs
      by_cases h2 : (true : Bool) = true ∧ (line.splitOn sep).length > column_count
      · rw [if_pos h2] at hvs
        simp at hvs
      · rw [if_neg h2] at hvs
        simp only [Option.some.injEq] at hvs
        subst hvs
        by_cases h3 : (line.splitOn sep).length < column_count
        · rw [if_pos (⟨trivial, h3⟩ : True ∧ _)]
          simp only [List.length_append, List.length_replicate]
          omega
        · rw [if_neg (fun hh => h3 hh.2)]
          simp only [not_and, true_implies] at h2
          omega
  · intro hgt
    unfold edgeReaderNext
    rw [if_neg (by omega), if_pos ⟨rfl, hgt⟩]
  · intro hlt hreq
    unfold edgeReaderNext
    rw [if_neg (by simp [hreq]), if_neg (by omega), if_pos ⟨rfl, hlt⟩]

theorem C10_witness :
    edgeReaderNext false true true 4 '\t' ['a', '\t', 'b']
        = some ((['a', '\t', 'b'].splitOn '\t')
            ++ List.replicate (4 - (['a', '\t', 'b'].splitOn '\t').length) []) ∧
      edgeReaderNext false true true 1 '\t' ['x', '\t', 'y'] = none :=
  ⟨(C10_edge_reader_next false 4 '\t' ['a', '\t', 'b']).2.2
      (by decide) rfl,
    (C10_edge_reader_next false 1 '\t' ['x', '\t', 'y']).2.1
      (by decide)⟩

/-! ### Return-clause synthesis -/

theorem agg_loop_fst (infos : List (Option (List Char))) :
    ∀ (col fr la : Int), fr ≤ col + infos.length →
      (agg_loop infos col fr la).1
        = min fr (col + (infos.findIdx (fun o => o.isSome) : Int)) := by
  induction infos with
  | nil =>
    intro col fr la hfr
    simp only [agg_loop, List.findIdx_nil, List.length_nil] at *
    omega
  | cons o rest ih =>
    intro col fr la hfr
    simp only [List.length_cons] at hfr
    match o with
    | some x =>
      simp only [agg_loop, List.findIdx_cons, Option.isSome_some, cond_true]
      rw [ih (col + 1) (min col fr) la (by omega)]
      have h0 : (0 : Int) ≤ (rest.findIdx (fun o => o.isSome) : Int) :=
        Int.ofNat_nonneg _
      omega
    | none =>
      simp only [agg_loop, List.findIdx_cons, Option.isSome_none, cond_false]
      rw [ih (col + 1) fr (max col la) (by omega)]
      omega

theorem agg_loop_snd (infos : List (Option (List Char))) :
    ∀ (col fr la : Int),
      (agg_loop infos col fr la).2
        = if lastNoneIdx infos ≥ 0 then max la (col + lastNoneIdx infos) else la := by
  induction infos with
  | nil =>
    intro col fr la
    simp [agg_loop, lastNoneIdx]
  | cons o rest ih =>
    intro col fr la
    match o with
    | some x =>
      simp only [agg_loop, lastNoneIdx, Option.isNone_some, Bool.false_eq_true,
        if_false]
      rw [ih (col + 1) (min col fr) la]
      by_cases hr : lastNoneIdx rest ≥ 0
      · simp only [if_pos hr]
        rw [if_pos (by omega : lastNoneIdx rest + 1 ≥ 0)]
        congr 1
        omega
      · simp only [if_neg hr]
        rw [if_neg (by omega : ¬(-1 : Int) ≥ 0)]
    | none =>
      simp only [agg_loop, lastNoneIdx, Option.isNone_none, if_true]
      rw [ih (col + 1) fr (max col la)]
      by_cases hr : lastNoneIdx rest ≥ 0
      · simp only [if_pos hr]
        rw [if_pos (by omega : lastNoneIdx rest + 1 ≥ 0)]
        omega
      · simp only [if_neg hr]
        rw [if_pos (by omega : (0 : Int) ≥ 0)]
        omega


theorem specAggEntry_isSome (st : Store) (it : ReturnItem) (em : List Char) :
    (specAggEntry st it em).isSome = !hasAggCall st it.expression := by
  unfold specAggEntry
  by_cases ha : hasAggCall st it.expression <;> simp [ha]

theorem specAggEntry_isNone (st : Store) (it : ReturnItem) (em : List Char) :
    (specAggEntry st it em).isNone = hasAggCall st it.expression := by
  unfold specAggEntry
  by_cases ha : hasAggCall st it.expression <;> simp [ha]

theorem findIdx_zipWith (st : Store) :
    ∀ (items : List ReturnItem) (emissions : List (List Char)),
      emissions.length = items.length →
      (List.zipWith (specAggEntry st) items emissions).findIdx (fun o => o.isSome)
        = items.findIdx (fun it => !hasAggCall st it.expression) := by
  intro items
  induction items with
  | nil =>
    intro emissions h
    simp
  | cons it items1 ih =>
    intro emissions h
    cases emissions with
    | nil => simp at h
    | cons em ems =>
      simp only [List.zipWith_cons_cons, List.findIdx_cons, specAggEntry_isSome]
      rw [ih ems (by simpa using h)]

theorem lastNoneIdx_zipWith (st : Store) :
    ∀ (items : List ReturnItem) (emissions : List (List Char)),
      emissions.length = items.length →
      lastNoneIdx (List.zipWith (specAggEntry st) items emissions)
        = lastAggIdx st items := by
  intro items
  induction items with
  | nil =>
    intro emissions h
    rfl
  | cons it items1 ih =>
    intro emissions h
    cases emissions with
    | nil => simp at h
    | cons em ems =>
      simp only [List.zipWith_cons_cons, lastNoneIdx, lastAggIdx,
        specAggEntry_isNone]
      rw [ih ems (by simpa using h)]

theorem lastNoneIdx_cases (l : List (Option (List Char))) :
    lastNoneIdx l ≥ 0 ∨ lastNoneIdx l = -1 := by
  induction l with
  | nil =>
    right
    rfl
  | cons o rest ih =>
    simp only [lastNoneIdx]
    by_cases hr : lastNoneIdx rest ≥ 0
    · left
      rw [if_pos hr]
      omega
    · rw [if_neg hr]
      by_cases ho : o.isNone = true
      · left
        rw [if_pos ho]
      · right
        rw [if_neg ho]

theorem return_items_loop_spec (st : Store) (qparams : List (String × Lit)) :
    ∀ (items : List ReturnItem) (litmap : Litmap) (varmap : Option Varmap)
      (pieces emissions : List (List Char)) (infos : List (Option (List Char)))
      (lm1 : Litmap),
      return_items_loop st qparams items litmap varmap
          = .ok (pieces, emissions, infos, lm1) →
      (∀ it ∈ items, it.name ≠ some "") →
      (∀ t ∈ emissions, t ≠ []) →
      emissions.length = items.length ∧
        infos = List.zipWith (specAggEntry st) items emissions := by
  intro items
  induction items with
  | nil =>
    intro litmap varmap pieces emissions infos lm1 hloop hnames hemp
    simp only [return_items_loop] at hloop
    simp at hloop
    obtain ⟨h1, h2, h3, h4⟩ := hloop
    subst h1
    subst h2
    subst h3
    simp
  | cons item items1 ih =>
    intro litmap varmap pieces emissions infos lm1 hloop hnames hemp
    simp only [return_items_loop] at hloop
    cases ht : expression_to_sql st qparams item.expression litmap varmap with
    | error err =>
      rw [ht] at hloop
      simp at hloop
    | ok r =>
      rw [ht] at hloop
      obtain ⟨expr, lma⟩ := r
      simp only [] at hloop
      cases hrest : return_items_loop st qparams items1 lma varmap with
      | error err =>
        rw [hrest] at hloop
        simp at hloop
      | ok r2 =>
        rw [hrest] at hloop
        obtain ⟨ps, ems, is2, lmb⟩ := r2
        simp only [Except.ok.injEq, Prod.mk.injEq] at hloop
        obtain ⟨h1, h2, h3, h4⟩ := hloop
        subst h1
        subst h2
        subst h3
        obtain ⟨hlen, hzip⟩ := ih lma varmap ps ems is2 lmb hrest
          (fun it hit => hnames it (List.mem_cons_of_mem _ hit))
          (fun t hte => hemp t (List.mem_cons_of_mem _ hte))
        constructor
        · simp [hlen]
        · simp only [List.zipWith_cons_cons]
          rw [← hzip]
          congr 1
          have hexpr : expr ≠ [] := hemp expr (List.mem_cons_self _ _)
          unfold specAggEntry
          cases hnm : item.name with
          | some nm =>
            have hnm1 : nm ≠ "" := by
              have := hnames item (List.mem_cons_self _ _)
              rw [hnm] at this
              intro hh
              exact this (by rw [hh])
            by_cases ha : hasAggCall st item.expression
            · simp [ha, hnm1]
            · simp [ha, hnm1, hnm]
          | none =>
            by_cases ha : hasAggCall st item.expression
            · simp [ha, hexpr]
            · simp [ha, hexpr, hnm]

/-- C7: return-clause synthesis emits a GROUP BY clause iff
last_agg > first_reg, where first_reg is the index of the first return
item containing no aggregate call and last_agg the index of the last item
containing an aggregate call; when emitted, the clause lists in order the
group-key texts (the item alias when present, else the raw translated
expression text) of the non-aggregate items among indices 0 .. last_agg-1;
otherwise no grouping is emitted. -/
theorem C7_group_by (st : Store) (qparams : List (String × Lit))
    (distinct : Bool) (items : List ReturnItem) (litmap : Litmap)
    (varmap : Option Varmap) (pieces emissions : List (List Char))
    (infos : List (Option (List Char))) (lm1 : Litmap)
    (hloop : return_items_loop st qparams items litmap varmap
        = .ok (pieces, emissions, infos, lm1))
    (hnames : ∀ it ∈ items, it.name ≠ some "")
    (hemp : ∀ t ∈ emissions, t ≠ []) :
    infos = List.zipWith (specAggEntry st) items emissions ∧
    return_clause_to_sql_selection st qparams distinct items litmap varmap
      = .ok ((if distinct then ['D', 'I', 'S', 'T', 'I', 'N', 'C', 'T', ' ']
            else []) ++ List.intercalate [',', ' '] pieces,
          (if lastAggIdx st items > firstRegIdx st items
            then some (['G', 'R', 'O', 'U', 'P', ' ', 'B', 'Y', ' ']
              ++ List.intercalate [',', ' ']
                ((infos.take (lastAggIdx st items).toNat).filterMap id))
            else none),
          lm1) := by
  obtain ⟨hlen, hzip⟩ := return_items_loop_spec st qparams items litmap varmap
    pieces emissions infos lm1 hloop hnames hemp
  refine ⟨hzip, ?_⟩
  have hinfolen : infos.length = items.length := by
    rw [hzip, List.length_zipWith, hlen]
    simp
  have hfindIdx : infos.findIdx (fun o => o.isSome)
      = items.findIdx (fun it => !hasAggCall st it.expression) := by
    rw [hzip]
    exact findIdx_zipWith st items emissions hlen
  have hlast : lastNoneIdx infos = lastAggIdx st items := by
    rw [hzip]
    exact lastNoneIdx_zipWith st items emissions hlen
  have h1 : (agg_loop infos 0 ((infos.length : Nat) : Int) (-1)).1
      = firstRegIdx st items := by
    rw [agg_loop_fst infos 0 (infos.length) (-1) (by simp)]
    have hfi : infos.findIdx (fun o => o.isSome) ≤ infos.length :=
      List.findIdx_le_length _
    unfold firstRegIdx
    rw [← hfindIdx]
    omega
  have h2 : (agg_loop infos 0 ((infos.length : Nat) : Int) (-1)).2
      = lastAggIdx st items := by
    rw [agg_loop_snd infos 0 (infos.length) (-1), hlast]
    rcases lastNoneIdx_cases infos with hc | hc
    · rw [hlast] at hc
      rw [if_pos hc]
      omega
    · rw [hlast] at hc
      rw [hc]
      rw [if_neg (by omega)]
  simp only [return_clause_to_sql_selection, hloop]
  rw [h2, h1]


theorem C7_witness :
    [some ['x'], (none : Option (List Char))]
        = List.zipWith (specAggEntry demoAggStore) demoItems
            [['g', '_', 'c', '1', '.', '"', 'n', 'o', 'd', 'e', '1', '"'],
              ['c', 'o', 'u', 'n', 't', '(', 'g', '_', 'c', '1', '.', '"', 'n',
                'o', 'd', 'e', '1', '"', ')']] ∧
    return_clause_to_sql_selection demoAggStore [] false demoItems []
        (some demoVarmap)
      = .ok ((if false then ['D', 'I', 'S', 'T', 'I', 'N', 'C', 'T', ' '] else [])
            ++ List.intercalate [',', ' ']
              [['g', '_', 'c', '1', '.', '"', 'n', 'o', 'd', 'e', '1', '"', ' ',
                  '"', 'x', '"'],
                ['c', 'o', 'u', 'n', 't', '(', 'g', '_', 'c', '1', '.', '"', 'n',
                  'o', 'd', 'e', '1', '"', ')']],
          (if lastAggIdx demoAggStore demoItems > firstRegIdx demoAggStore demoItems
            then some (['G', 'R', 'O', 'U', 'P', ' ', 'B', 'Y', ' ']
              ++ List.intercalate [',', ' ']
                (([some ['x'], (none : Option (List Char))].take
                    (lastAggIdx demoAggStore demoItems).toNat).filterMap id))
            else none),
          []) :=
  C7_group_by demoAggStore [] false demoItems [] (some demoVarmap)
    [['g', '_', 'c', '1', '.', '"', 'n', 'o', 'd', 'e', '1', '"', ' ', '"', 'x', '"'],
      ['c', 'o', 'u', 'n', 't', '(', 'g', '_', 'c', '1', '.', '"', 'n', 'o', 'd',
        'e', '1', '"', ')']]
    [['g', '_', 'c', '1', '.', '"', 'n', 'o', 'd', 'e', '1', '"'],
      ['c', 'o', 'u', 'n', 't', '(', 'g', '_', 'c', '1', '.', '"', 'n', 'o', 'd',
        'e', '1', '"', ')']]
    [some ['x'], none] [] rfl (by decide) (by decide)

end KgtkQuery
